import Mathlib

/-!
Verification development for the `openai-agents` Rust crate
(`crates/openai-agents/src`), a multi-turn agent orchestration runtime.

We give a shallow embedding of the runner's synchronous turn loop
(`runner.rs`, `Runner::run_with_config`), the streaming accumulation and
dispatch pipeline (`Runner::run_streamed_with_config`), and the supporting
data model (`models/mod.rs`, `result.rs`, `error.rs`, `handoff.rs`,
`agent.rs`).  External effects are made explicit:

* the model backend (`ModelProvider::complete`) is a parameter giving the
  response for each turn index (the loop performs exactly one `complete`
  call per iteration);
* lifecycle hooks are identified by string ids and their invocations are
  recorded in an event trace (every hook shipped with the crate is a no-op
  returning `Ok`, so hooks are modelled as non-failing);
* the session is modelled by the item list its `get_items` returns, and
  `add_items` calls are recorded in a write trace;
* `serde_json::Value` is modelled by an inductive `Json` type, and
  `serde_json::from_str` (used only in streaming argument parsing, an
  external library call) is a parameter of the streaming functions.
-/

namespace OpenAIAgents

/-- Model of `serde_json::Value` (numbers restricted to integers; no claim
depends on float payloads). -/
inductive Json : Type where
  | null : Json
  | bool (b : Bool) : Json
  | num (n : Int) : Json
  | str (s : String) : Json
  | arr (elems : List Json) : Json
  | obj (fields : List (String × Json)) : Json

/-- Field lookup on a JSON object, as `serde_json::Value::get`. -/
def Json.get (j : Json) (key : String) : Option Json :=
  match j with
  | .obj fields => (fields.find? (fun f => f.1 == key)).map (fun f => f.2)
  | _ => none

/-- Model of `value.get(key).and_then(|v| v.as_str())`. -/
def Json.getStr (j : Json) (key : String) : Option String :=
  match j.get key with
  | some (.str s) => some s
  | _ => none

mutual
/-- Render a JSON value to a string, as `serde_json::to_string` (string
escaping abbreviated; no claim inspects the rendered text). -/
def Json.render : Json → String
  | .null => "null"
  | .bool true => "true"
  | .bool false => "false"
  | .num n => toString n
  | .str s => "\x22" ++ s ++ "\x22"
  | .arr elems => "[" ++ String.intercalate "," (Json.renderList elems) ++ "]"
  | .obj fields =>
      "\x7b" ++ String.intercalate "," (Json.renderFields fields) ++ "\x7d"

/-- Render the elements of a JSON array. -/
def Json.renderList : List Json → List String
  | [] => []
  | j :: rest => j.render :: Json.renderList rest

/-- Render the fields of a JSON object. -/
def Json.renderFields : List (String × Json) → List String
  | [] => []
  | (k, v) :: rest => ("\x22" ++ k ++ "\x22:" ++ v.render) :: Json.renderFields rest
end

/-- Model of `models::Message`: a role/content pair. -/
structure Message : Type where
  role : String
  content : String
deriving DecidableEq

instance : Inhabited Message := ⟨⟨"", ""⟩⟩

/-- Model of `serde_json::to_value(&Message)`. -/
def Message.toJson (m : Message) : Json :=
  .obj [("role", .str m.role), ("content", .str m.content)]

/-- Model of `serde_json::from_value::<Message>`: succeeds when the value is an
object with string fields `role` and `content` (extra fields ignored, as
serde does by default). -/
def Message.fromJson (j : Json) : Option Message :=
  match j.getStr "role", j.getStr "content" with
  | some r, some c => some ⟨r, c⟩
  | _, _ => none

/-- Model of `models::ToolDefinition`. -/
structure ToolDefinition : Type where
  name : String
  description : String
  parameters : Json

/-- Model of `models::ToolCall` (a completed tool call in a response). -/
structure ToolCall : Type where
  id : String
  name : String
  arguments : Json

/-- Model of `models::CompletionResponse`. -/
structure CompletionResponse : Type where
  content : Option String
  tool_calls : List ToolCall
  finish_reason : Option String

/-- Model of `models::JsonSchemaFormat`. -/
structure JsonSchemaFormat : Type where
  name : String
  description : Option String
  schema : Json
  strict : Option Bool

/-- Model of `models::ResponseFormat` (the runner only ever builds the
`JsonSchema` variant). -/
inductive ResponseFormat : Type where
  | text : ResponseFormat
  | jsonObject : ResponseFormat
  | jsonSchema (json_schema : JsonSchemaFormat) : ResponseFormat

/-- A tool implementation: the observable surface of the `Tool` trait
(`tool.rs`).  `exec` models `execute`, with errors as strings
(`e.to_string()`). -/
structure ToolImpl : Type where
  name : String
  description : String
  paramsSchema : Json
  exec : Json → Except String Json

mutual
/-- Model of `agent::Agent`: name, instructions, model id, tools, handoffs, hook
ids, optional output schema and schema name.  Guardrail lists are omitted:
the runner never reads them. -/
inductive Agent : Type where
  | mk (name instructions model : String) (tools : List ToolImpl)
      (handoffs : List Handoff) (hooks : List String)
      (outputSchema : Option Json) (outputName : Option String) : Agent

/-- Model of `handoff::Handoff`: target agent, optional description, tool name. -/
inductive Handoff : Type where
  | mk (targetAgent : Agent) (description : Option String)
      (name : String) : Handoff
end

/-- Agent name accessor. -/
def Agent.name : Agent → String
  | .mk n _ _ _ _ _ _ _ => n

/-- Agent instructions accessor. -/
def Agent.instructions : Agent → String
  | .mk _ i _ _ _ _ _ _ => i

/-- Agent model-id accessor. -/
def Agent.model : Agent → String
  | .mk _ _ m _ _ _ _ _ => m

/-- Agent tools accessor. -/
def Agent.tools : Agent → List ToolImpl
  | .mk _ _ _ t _ _ _ _ => t

/-- Agent handoffs accessor. -/
def Agent.handoffs : Agent → List Handoff
  | .mk _ _ _ _ h _ _ _ => h

/-- Agent hook-id accessor. -/
def Agent.hooks : Agent → List String
  | .mk _ _ _ _ _ h _ _ => h

/-- Agent output-schema accessor. -/
def Agent.outputSchema : Agent → Option Json
  | .mk _ _ _ _ _ _ s _ => s

/-- Agent output-name accessor. -/
def Agent.outputName : Agent → Option String
  | .mk _ _ _ _ _ _ _ n => n

/-- Handoff target accessor. -/
def Handoff.targetAgent : Handoff → Agent
  | .mk t _ _ => t

/-- Handoff description field accessor. -/
def Handoff.descriptionField : Handoff → Option String
  | .mk _ d _ => d

/-- Handoff tool-name accessor. -/
def Handoff.name : Handoff → String
  | .mk _ _ n => n

/-- Model of `Handoff::description` in `handoff.rs`:
`self.description.as_deref().unwrap_or("Handoff to another agent")`. -/
def Handoff.description (h : Handoff) : String :=
  h.descriptionField.getD "Handoff to another agent"

/-- Model of `Handoff::parameters_schema` in `handoff.rs`. -/
def Handoff.parametersSchema (_h : Handoff) : Json :=
  .obj [("type", .str "object"), ("properties", .obj []),
        ("additionalProperties", .bool false)]

/-- Model of `Handoff::execute` in `handoff.rs`: always returns
`Ok(json!({"assistant": target.name}))`. -/
def Handoff.execute (h : Handoff) (_args : Json) : Json :=
  .obj [("assistant", .str h.targetAgent.name)]

/-- Model of the `error.rs` `AgentError`, restricted to the variants the runner itself
constructs (`MaxTurnsExceeded` and `AgentError::tool_failed`). -/
inductive AgentError : Type where
  | maxTurnsExceeded (n : Nat) : AgentError
  | toolExecutionFailed (tool_name reason : String) : AgentError
deriving DecidableEq

/-- Model of the `result.rs` `RunResult`. -/
structure RunResult : Type where
  final_output : String
  structured_output : Option Json

/-- Model of `RunResult::new`: sets `structured_output` to `None`. -/
def RunResult.new (final_output : String) : RunResult :=
  ⟨final_output, none⟩

/-- A recorded lifecycle-hook invocation.  `onAgentStart`, `onAgentEnd` and
`onHandoffRun` are the run-level family (`RunHooks`); the rest are
agent-level (`AgentHooks`).  Hooks are identified by the string ids stored
in `RunConfig.runHooks` / `Agent.hooks`. -/
inductive HookEvent : Type where
  | onAgentStart (hook agentName : String) : HookEvent
  | onStart (hook agentName : String) : HookEvent
  | onLlmStart (hook agentName : String) : HookEvent
  | onLlmEnd (hook agentName : String) : HookEvent
  | onAgentEnd (hook content : String) : HookEvent
  | onEnd (hook content : String) : HookEvent
  | onToolStart (hook toolName : String) : HookEvent
  | onToolEnd (hook toolName : String) : HookEvent
  | onHandoffRun (hook fromAgent toAgent : String) : HookEvent
  | onHandoffAgent (hook fromAgent toAgent : String) : HookEvent
deriving DecidableEq

/-- Model of `models::CompletionRequest` (`temperature` is `f32` in the source but
the runner always sends `None`, so the payload type is irrelevant). -/
structure CompletionRequest : Type where
  messages : List Message
  model : String
  tools : Option (List ToolDefinition)
  max_tokens : Option Nat
  temperature : Option Unit
  response_format : Option ResponseFormat

/-- Model of the `runner.rs` `RunConfig`.  The session is modelled by the list of items
its `get_items` returns; `model_override` is the `backend` parameter of
`runWithConfig`. -/
structure RunConfig : Type where
  maxTurns : Nat
  session : Option (List Json)
  runHooks : List String

/-- Observable effects of a run: every `complete` request sent to the
backend, every hook invocation, and every `Session::add_items` call. -/
structure Trace : Type where
  requests : List CompletionRequest
  hookEvents : List HookEvent
  sessionWrites : List (List Json)

/-- The empty trace. -/
def Trace.nil : Trace := ⟨[], [], []⟩

/-- Record hook invocations. -/
def Trace.addHooks (tr : Trace) (es : List HookEvent) : Trace :=
  ⟨tr.requests, tr.hookEvents ++ es, tr.sessionWrites⟩

/-- Record one backend `complete` call. -/
def Trace.addRequest (tr : Trace) (req : CompletionRequest) : Trace :=
  ⟨tr.requests ++ [req], tr.hookEvents, tr.sessionWrites⟩

/-- Record one `Session::add_items` call. -/
def Trace.addWrite (tr : Trace) (items : List Json) : Trace :=
  ⟨tr.requests, tr.hookEvents, tr.sessionWrites ++ [items]⟩

/-- Mutable state of the turn loop: the message log, the current agent and
the current tool definitions (`None` when the list would be empty). -/
structure LoopState : Type where
  messages : List Message
  currentAgent : Agent
  currentTools : Option (List ToolDefinition)

/-- The `ToolDefinition` built from an ordinary tool (runner.rs 106-112). -/
def toolDefOfTool (t : ToolImpl) : ToolDefinition :=
  ⟨t.name, t.description, t.paramsSchema⟩

/-- The `ToolDefinition` built from a handoff (runner.rs 114-120). -/
def toolDefOfHandoff (h : Handoff) : ToolDefinition :=
  ⟨h.name, h.description, h.parametersSchema⟩

/-- All tool definitions of an agent: tools first, then handoffs. -/
def agentToolDefs (a : Agent) : List ToolDefinition :=
  a.tools.map toolDefOfTool ++ a.handoffs.map toolDefOfHandoff

/-- Wrap as `Some(defs)` when non-empty, else `None` (runner.rs 122-126). -/
def optionalToolDefs (defs : List ToolDefinition) : Option (List ToolDefinition) :=
  if defs.isEmpty then none else some defs

/-- Initial message log (runner.rs 70-94): system message when the agent
has instructions, then every session-history item that deserializes to a
`Message`, then the user input. -/
def initMessages (agent : Agent) (session : Option (List Json)) (input : String) :
    List Message :=
  (if agent.instructions.isEmpty then [] else [⟨"system", agent.instructions⟩]) ++
    (match session with
      | some items => items.filterMap Message.fromJson
      | none => []) ++
    [⟨"user", input⟩]

/-- The completion request built each turn (runner.rs 142-161). -/
def buildRequest (st : LoopState) : CompletionRequest :=
  ⟨st.messages, st.currentAgent.model, st.currentTools, none, none,
    st.currentAgent.outputSchema.map (fun schema =>
      .jsonSchema ⟨st.currentAgent.outputName.getD "output", none, schema, some true⟩)⟩

/-- System-message resynchronization after a handoff (runner.rs 283-294):
replace the content of index 0 when its role is `system`, else insert a
system message at index 0 when the new instructions are non-empty. -/
def syncSystemMessage (msgs : List Message) (instr : String) : List Message :=
  match msgs with
  | m0 :: rest =>
      if m0.role == "system" then ⟨m0.role, instr⟩ :: rest
      else if instr.isEmpty then m0 :: rest
      else ⟨"system", instr⟩ :: m0 :: rest
  | [] => if instr.isEmpty then [] else [⟨"system", instr⟩]

/-- The tool-role message recording a tool result (runner.rs 264-269). -/
def toolResultMessage (name : String) (result : Json) : Message :=
  ⟨"tool", "Tool \x27" ++ name ++ "\x27 returned: " ++ result.render⟩

/-- Steps after a tool call produced a result (runner.rs 258-317): fire
`on_tool_end` hooks, append the tool-role message, then, when the call was
a handoff carrying the target marker, fire handoff hooks (run-level then
agent-level), swap the current agent, resynchronize the system message and
rebuild the tool definitions. -/
def execAfterTool (cfg : RunConfig) (callName : String) (st : LoopState) (tr : Trace)
    (result : Json) (handedOffTo : Option Agent) : LoopState × Trace :=
  let tr := tr.addHooks (st.currentAgent.hooks.map (fun h => .onToolEnd h callName))
  let msgs := st.messages ++ [toolResultMessage callName result]
  match handedOffTo with
  | none => (⟨msgs, st.currentAgent, st.currentTools⟩, tr)
  | some newAgent =>
      let tr := tr.addHooks
        (cfg.runHooks.map (fun h => .onHandoffRun h st.currentAgent.name newAgent.name) ++
          st.currentAgent.hooks.map (fun h => .onHandoffAgent h st.currentAgent.name newAgent.name))
      let msgs := syncSystemMessage msgs newAgent.instructions
      (⟨msgs, newAgent, optionalToolDefs (agentToolDefs newAgent)⟩, tr)

/-- How a tool-call name resolves against the current agent
(runner.rs 224-238): ordinary tools are searched first, then handoffs. -/
inductive Resolution : Type where
  | tool (t : ToolImpl) : Resolution
  | handoff (h : Handoff) : Resolution
  | missing : Resolution

/-- Resolve a tool-call name against an agent. -/
def resolveName (a : Agent) (name : String) : Resolution :=
  match a.tools.find? (fun t => t.name == name) with
  | some t => .tool t
  | none =>
      match a.handoffs.find? (fun h => h.name == name) with
      | some h => .handoff h
      | none => .missing

/-- Execution of one tool call (runner.rs 212-318).  An error is the
payload of `AgentError::tool_failed` paired with the trace accumulated so
far. -/
def execOneToolCall (cfg : RunConfig) (call : ToolCall) (st : LoopState) (tr : Trace) :
    Except ((String × String) × Trace) (LoopState × Trace) :=
  let tr := tr.addHooks (st.currentAgent.hooks.map (fun h => .onToolStart h call.name))
  match resolveName st.currentAgent call.name with
  | .tool t =>
      match t.exec call.arguments with
      | .error e => .error ((call.name, e), tr)
      | .ok result => .ok (execAfterTool cfg call.name st tr result none)
  | .handoff h =>
      let result := h.execute call.arguments
      let handedOffTo :=
        match result.getStr "assistant" with
        | some _ => some h.targetAgent
        | none => none
      .ok (execAfterTool cfg call.name st tr result handedOffTo)
  | .missing =>
      .error ((call.name, "Tool \x27" ++ call.name ++ "\x27 not found"), tr)

/-- Sequential execution of a turn's tool calls (runner.rs 211-319). -/
def processToolCalls (cfg : RunConfig) :
    List ToolCall → LoopState → Trace →
      Except ((String × String) × Trace) (LoopState × Trace)
  | [], st, tr => .ok (st, tr)
  | call :: rest, st, tr =>
      match execOneToolCall cfg call st tr with
      | .error e => .error e
      | .ok (st', tr') => processToolCalls cfg rest st' tr'

/-- Result of one loop iteration: either the run returns (`done`), or the
loop proceeds with a new state (`next`). -/
inductive TurnOutcome : Type where
  | done (result : Except AgentError RunResult) : TurnOutcome
  | next (st : LoopState) : TurnOutcome

/-- Append the response content as an assistant message when present
(runner.rs 203-208). -/
def pushAssistantContent (st : LoopState) (content : Option String) : LoopState :=
  match content with
  | some c => ⟨st.messages ++ [⟨"assistant", c⟩], st.currentAgent, st.currentTools⟩
  | none => st

/-- One iteration of the synchronous turn loop (runner.rs 133-319, body):
start hooks, build the request, llm hooks around the backend call, then
either the terminal branch (content present, zero tool calls: end hooks,
session write of the last pre-response message and the new assistant
message, return the result) or the tool-call branch. -/
def turnStep (backend : Nat → CompletionResponse) (cfg : RunConfig) (turn : Nat)
    (st : LoopState) (tr : Trace) : TurnOutcome × Trace :=
  let a := st.currentAgent
  let tr := tr.addHooks
    (cfg.runHooks.map (fun h => .onAgentStart h a.name) ++
      a.hooks.map (fun h => .onStart h a.name))
  let request := buildRequest st
  let tr := (tr.addHooks (a.hooks.map (fun h => .onLlmStart h a.name))).addRequest request
  let response := backend turn
  let tr := tr.addHooks (a.hooks.map (fun h => .onLlmEnd h a.name))
  match response.content, response.tool_calls.isEmpty with
  | some content, true =>
      let tr := tr.addHooks
        (cfg.runHooks.map (fun h => .onAgentEnd h content) ++
          a.hooks.map (fun h => .onEnd h content))
      let tr :=
        match cfg.session with
        | some _ => tr.addWrite
            [(st.messages.getLastD default).toJson,
              (Message.mk "assistant" content).toJson]
        | none => tr
      (.done (.ok (RunResult.new content)), tr)
  | oc, _ =>
      let st1 := pushAssistantContent st oc
      match processToolCalls cfg response.tool_calls st1 tr with
      | .error ((n, r), tr') => (.done (.error (.toolExecutionFailed n r)), tr')
      | .ok (st2, tr') => (.next st2, tr')

/-- The turn loop (runner.rs 133-327): `fuel` counts the iterations left
of `for turn in 0..max_turns`; exhausting it is the fall-through
`Err(MaxTurnsExceeded)` after the loop, and the in-loop
`turn >= max_turns - 1` check is kept verbatim. -/
def runTurns (backend : Nat → CompletionResponse) (cfg : RunConfig) :
    Nat → Nat → LoopState → Trace → Except AgentError RunResult × Trace
  | 0, _, _, tr => (.error (.maxTurnsExceeded cfg.maxTurns), tr)
  | fuel + 1, turn, st, tr =>
      match turnStep backend cfg turn st tr with
      | (.done r, tr') => (r, tr')
      | (.next st', tr') =>
          if turn ≥ cfg.maxTurns - 1 then
            (.error (.maxTurnsExceeded cfg.maxTurns), tr')
          else
            runTurns backend cfg fuel (turn + 1) st' tr'

/-- Model of `Runner::run_with_config` (runner.rs 64-328).  `backend` gives the
response of the `complete` call made on each loop iteration. -/
def runWithConfig (backend : Nat → CompletionResponse) (agent : Agent)
    (input : String) (cfg : RunConfig) : Except AgentError RunResult × Trace :=
  runTurns backend cfg cfg.maxTurns 0
    ⟨initMessages agent cfg.session input, agent, optionalToolDefs (agentToolDefs agent)⟩
    Trace.nil

/-- Model of `models::ToolCallDelta`: one streamed tool-call fragment. -/
structure ToolCallDelta : Type where
  index : Nat
  id : Option String
  name : Option String
  arguments : Option String

/-- Model of `models::StreamChunk`. -/
structure StreamChunk : Type where
  delta : Option String
  tool_call_deltas : List ToolCallDelta
  finish_reason : Option String

/-- The stream events the streaming runner emits (`stream_events.rs`),
with payloads reduced to what the events carry observably. -/
inductive StreamEvent : Type where
  | rawResponse (data : String) : StreamEvent
  | messageOutput (content : String) : StreamEvent
  | toolCalled (name : String) (arguments : Json) : StreamEvent
  | toolOutput (name : String) (output : String) : StreamEvent
  | agentUpdated (agentName : String) : StreamEvent

/-- An accumulated tool-call entry: the three growing buffers
`(id, name, arguments)` (runner.rs 488). -/
abbrev ToolCallAcc := String × String × String

/-- Grow the vector as `while accumulated_tool_calls.len() <= index push (\x22\x22,\x22\x22,\x22\x22)`
(runner.rs 507-514). -/
def padToIndex (v : List ToolCallAcc) (idx : Nat) : List ToolCallAcc :=
  v ++ List.replicate (idx + 1 - v.length) ("", "", "")

/-- Apply one tool-call-delta fragment: pad the vector up to the fragment's
index, then append each present field to the entry's buffers
(runner.rs 506-526). -/
def applyToolCallDelta (v : List ToolCallAcc) (d : ToolCallDelta) : List ToolCallAcc :=
  let v := padToIndex v d.index
  match v.get? d.index with
  | some (i, n, a) =>
      v.set d.index
        (i ++ d.id.getD "", n ++ d.name.getD "", a ++ d.arguments.getD "")
  | none => v

/-- Accumulation state of one streaming round: the text content, the
tool-call entries, and the events emitted so far. -/
structure StreamAccum : Type where
  content : String
  toolCalls : List ToolCallAcc
  events : List StreamEvent

/-- The chunk loop (runner.rs 491-532): emit a raw-response event per text
delta while concatenating it, apply every tool-call fragment, stop at a
chunk-level error or at the first chunk with a finish reason (that chunk's
deltas are still applied). -/
def accumChunks : List (Except String StreamChunk) → StreamAccum → StreamAccum
  | [], acc => acc
  | .error _ :: _, acc => acc
  | .ok c :: rest, acc =>
      let acc : StreamAccum :=
        match c.delta with
        | some d => ⟨acc.content ++ d, acc.toolCalls, acc.events ++ [.rawResponse d]⟩
        | none => acc
      let acc : StreamAccum :=
        ⟨acc.content, c.tool_call_deltas.foldl applyToolCallDelta acc.toolCalls, acc.events⟩
      if c.finish_reason.isSome then acc else accumChunks rest acc

/-- State of the streaming turn loop.  `finalOutput` mirrors the
`final_output` variable of the spawned task.  Hook invocations are not
traced here: in streaming mode every hook error is discarded
(`let _ = hook...`), and no claim concerns streaming hook order. -/
structure StreamState : Type where
  messages : List Message
  currentAgent : Agent
  currentTools : Option (List ToolDefinition)
  finalOutput : String

/-- Tool-output bookkeeping of the streaming dispatch (runner.rs 597-674):
emit the tool-output event, append the tool-role message, and on a handoff
emit the agent-updated event, swap the agent, resynchronize the system
message and rebuild the tool definitions. -/
def streamAfterTool (name : String) (result : Json) (target : Option Agent)
    (st : StreamState) (evs : List StreamEvent) (handedOff : Bool) :
    StreamState × List StreamEvent × Bool :=
  let resultStr := result.render
  let evs := evs ++ [.toolOutput name resultStr]
  let msgs := st.messages ++ [toolResultMessage name result]
  match target with
  | none => (⟨msgs, st.currentAgent, st.currentTools, st.finalOutput⟩, evs, handedOff)
  | some newAgent =>
      let evs := evs ++ [.agentUpdated newAgent.name]
      let msgs := syncSystemMessage msgs newAgent.instructions
      (⟨msgs, newAgent, optionalToolDefs (agentToolDefs newAgent), st.finalOutput⟩,
        evs, true)

/-- Dispatch of one accumulated tool-call entry (runner.rs 554-675):
entries with an empty name are skipped; the argument string is parsed with
`parse` (modelling `serde_json::from_str`), substituting the empty object
on failure; the tool-call event is emitted before resolution; resolution
failures and tool errors are skipped (`if let Ok(...)`), not surfaced. -/
def streamDispatchOne (parse : String → Option Json) (st : StreamState)
    (evs : List StreamEvent) (handedOff : Bool) (entry : ToolCallAcc) :
    StreamState × List StreamEvent × Bool :=
  let (_id, name, argsStr) := entry
  if name.isEmpty then (st, evs, handedOff)
  else
    let arguments := (parse argsStr).getD (.obj [])
    let evs := evs ++ [.toolCalled name arguments]
    match resolveName st.currentAgent name with
    | .tool t =>
        match t.exec arguments with
        | .error _ => (st, evs, handedOff)
        | .ok result => streamAfterTool name result none st evs handedOff
    | .handoff h =>
        let result := h.execute arguments
        let target :=
          match result.getStr "assistant" with
          | some _ => some h.targetAgent
          | none => none
        streamAfterTool name result target st evs handedOff
    | .missing => (st, evs, handedOff)

/-- Sequential dispatch of all accumulated entries (runner.rs 554). -/
def streamDispatchList (parse : String → Option Json) :
    List ToolCallAcc → StreamState → List StreamEvent → Bool →
      StreamState × List StreamEvent × Bool
  | [], st, evs, ho => (st, evs, ho)
  | e :: rest, st, evs, ho =>
      let r := streamDispatchOne parse st evs ho e
      streamDispatchList parse rest r.1 r.2.1 r.2.2

/-- One round of the streaming loop (runner.rs 441-695 body, after the
stream was obtained): accumulate the chunks; when the accumulated content
is non-empty record it as `final_output`, append an assistant message and
emit a message-output event; when the accumulated tool-call vector is
non-empty dispatch every entry and continue, otherwise fire end hooks and
break.  The returned `Bool` is true when the round breaks the loop. -/
def streamTurn (parse : String → Option Json)
    (chunks : List (Except String StreamChunk)) (st : StreamState) :
    StreamState × List StreamEvent × Bool :=
  let acc := accumChunks chunks (⟨"", [], []⟩ : StreamAccum)
  let st : StreamState :=
    if acc.content.isEmpty then st
    else ⟨st.messages ++ [⟨"assistant", acc.content⟩], st.currentAgent,
      st.currentTools, acc.content⟩
  let evs := acc.events ++ (if acc.content.isEmpty then [] else [.messageOutput acc.content])
  if acc.toolCalls.isEmpty then
    (st, evs, true)
  else
    let r := streamDispatchList parse acc.toolCalls st evs false
    (r.1, r.2.1, false)

/-- Concatenation, in arrival order, of one optional field of a fragment
sequence (the reassembly the spec describes for each of the three
buffers). -/
def deltaConcat (f : ToolCallDelta → Option String) : List ToolCallDelta → String
  | [] => ""
  | d :: ds => (f d).getD "" ++ deltaConcat f ds

/-- The tool-call event the streaming dispatch emits for one accumulated
entry: none when the name is empty (the entry is skipped), otherwise the
name with the parsed arguments, the empty object substituted on parse
failure. -/
def dispatchEventOf (parse : String → Option Json) (e : ToolCallAcc) :
    Option StreamEvent :=
  if e.2.1.isEmpty then none
  else some (.toolCalled e.2.1 ((parse e.2.2).getD (.obj [])))

/-- Projection of the trace out of a tool-call execution result (both the
error and the success payload carry the trace accumulated so far). -/
def exTrace (r : Except ((String × String) × Trace) (LoopState × Trace)) : Trace :=
  match r with
  | .error (_, tr) => tr
  | .ok (_, tr) => tr

/-- Whether a run outcome is the `ToolExecutionFailed` error. -/
def isToolFailure (r : Except AgentError RunResult) : Bool :=
  match r with
  | .error (.toolExecutionFailed _ _) => true
  | _ => false

/-- The ordering invariant the spec claims for the message log: every
system-role message sits at index 0; equivalently, no message after the
head has role `system` (which also bounds the number of system messages
by one). -/
def systemInvariant (msgs : List Message) : Prop :=
  ∀ m ∈ msgs.drop 1, m.role ≠ "system"

instance (msgs : List Message) : Decidable (systemInvariant msgs) := by
  unfold systemInvariant; infer_instance

/-- Whether a stream event is a tool-call event. -/
def StreamEvent.isToolCalled : StreamEvent → Bool
  | .toolCalled _ _ => true
  | _ => false

/-- A minimal agent: no instructions, tools, handoffs or hooks. -/
def plainAgent : Agent := .mk "A" "" "gpt-4o" [] [] [] none none

/-- A backend returning the same response on every call. -/
def constBackend (r : CompletionResponse) : Nat → CompletionResponse := fun _ => r

/-- The trace accumulated by a loop iteration between its start and the
point where tool calls are processed: start hooks, llm-start hooks, the
backend request, llm-end hooks. -/
def turnPreTrace (cfg : RunConfig) (st : LoopState) (tr : Trace) : Trace :=
  (((tr.addHooks
        (cfg.runHooks.map (fun h => .onAgentStart h st.currentAgent.name) ++
          st.currentAgent.hooks.map (fun h => .onStart h st.currentAgent.name))).addHooks
      (st.currentAgent.hooks.map (fun h => .onLlmStart h st.currentAgent.name))).addRequest
    (buildRequest st)).addHooks
    (st.currentAgent.hooks.map (fun h => .onLlmEnd h st.currentAgent.name))

/-- An agent with an output schema and schema name and no tools. -/
def chefAgent : Agent :=
  .mk "Chef" "" "gpt-4o-mini" [] [] [] (some (.obj [("type", .str "object")]))
    (some "Recipe")

/-- An agent with one agent-level hook id and no tools. -/
def hookedAgent : Agent := .mk "A" "" "gpt-4o" [] [] ["ah"] none none

/-- A backend that always asks for a tool that no fixture agent has. -/
def badToolBackend : Nat → CompletionResponse :=
  fun _ => ⟨some "x", [⟨"1", "nope", .obj []⟩], none⟩

/-- A session item carrying a system-role message. -/
def sysHistItem : Json := .obj [("role", .str "system"), ("content", .str "h")]

/-- Handoff fixture: the target agent. -/
def targetFixture : Agent := .mk "B" "you are B" "gpt-4o" [] [] [] none none

/-- Handoff fixture: the handoff entry pointing at `targetFixture`. -/
def handoffGo : Handoff := .mk targetFixture none "go"

/-- Handoff fixture: the source agent owning `handoffGo`. -/
def sourceAgent : Agent := .mk "A" "you are A" "gpt-4o" [] [handoffGo] [] none none

/-- A tool fixture that always succeeds. -/
def echoTool : ToolImpl := ⟨"t", "d", .obj [], fun _ => .ok (.num 1)⟩

/-- An agent owning `echoTool`. -/
def toolAgent : Agent := .mk "A" "inst" "gpt-4o" [echoTool] [] [] none none

/-- A backend whose first response calls `echoTool` and whose second is
terminal. -/
def toolCallBackend : Nat → CompletionResponse := fun n =>
  if n = 0 then ⟨some "use", [⟨"1", "t", .obj []⟩], none⟩
  else ⟨some "done", [], none⟩

/-- A concrete JSON parser fixture recognizing exactly the empty object. -/
def parseScenario : String → Option Json :=
  fun s => if s = "\x7b\x7d" then some (.obj []) else none

/-- The chunk sequence of the spec's streaming scenario: a name fragment
and an argument fragment for index 0, then a finish chunk. -/
def chunksScenario : List (Except String StreamChunk) :=
  [.ok ⟨none, [⟨0, none, some "f", none⟩], none⟩,
    .ok ⟨none, [⟨0, none, none, some "\x7b\x7d"⟩], none⟩,
    .ok ⟨none, [], some "tool_calls"⟩]

/-- Claim C10: running with `max_turns = 0` returns
`Err(MaxTurnsExceeded(0))` immediately: the loop body never executes, so
no hook fires, no backend `complete` call is made and no session write
occurs (the `max_turns - 1` comparison inside the loop body is likewise
never evaluated). -/
theorem zero_max_turns_no_effects (backend : Nat → CompletionResponse)
    (agent : Agent) (input : String) (session : Option (List Json))
    (runHooks : List String) :
    runWithConfig backend agent input ⟨0, session, runHooks⟩ =
      (.error (.maxTurnsExceeded 0), ⟨[], [], []⟩) := rfl

lemma execAfterTool_frame (cfg : RunConfig) (n : String) (st : LoopState) (tr : Trace)
    (res : Json) (ho : Option Agent) :
    (execAfterTool cfg n st tr res ho).2.requests = tr.requests ∧
      (execAfterTool cfg n st tr res ho).2.sessionWrites = tr.sessionWrites := by
  cases ho <;> simp [execAfterTool, Trace.addHooks]

lemma execOneToolCall_frame (cfg : RunConfig) (call : ToolCall) (st : LoopState) (tr : Trace) :
    (exTrace (execOneToolCall cfg call st tr)).requests = tr.requests ∧
      (exTrace (execOneToolCall cfg call st tr)).sessionWrites = tr.sessionWrites := by
  unfold execOneToolCall
  cases hr : resolveName st.currentAgent call.name with
  | tool t =>
      cases he : t.exec call.arguments with
      | error e => simp [hr, he, exTrace, Trace.addHooks]
      | ok result => simp [hr, he, exTrace, Trace.addHooks, execAfterTool_frame]
  | handoff h => simp [hr, exTrace, Trace.addHooks, execAfterTool_frame]
  | missing => simp [hr, exTrace, Trace.addHooks]

lemma processToolCalls_frame (cfg : RunConfig) :
    ∀ (calls : List ToolCall) (st : LoopState) (tr : Trace),
      (exTrace (processToolCalls cfg calls st tr)).requests = tr.requests ∧
        (exTrace (processToolCalls cfg calls st tr)).sessionWrites = tr.sessionWrites := by
  intro calls
  induction calls with
  | nil => intro st tr; simp [processToolCalls, exTrace]
  | cons c rest ih =>
      intro st tr
      have hf := execOneToolCall_frame cfg c st tr
      cases he : execOneToolCall cfg c st tr with
      | error e =>
          rw [he] at hf
          simp [processToolCalls, he, exTrace] at hf ⊢
          exact hf
      | ok p =>
          rw [he] at hf
          simp only [exTrace] at hf
          have := ih p.1 p.2
          simp [processToolCalls, he, this.1, this.2, hf.1, hf.2]

lemma turnStep_terminal (backend : Nat → CompletionResponse) (cfg : RunConfig)
    (turn : Nat) (st : LoopState) (tr : Trace) (c : String)
    (hc : (backend turn).content = some c) (he : (backend turn).tool_calls = []) :
    turnStep backend cfg turn st tr =
      (.done (.ok (RunResult.new c)),
        ⟨tr.requests ++ [buildRequest st],
          tr.hookEvents ++
            (cfg.runHooks.map (fun h => .onAgentStart h st.currentAgent.name) ++
              st.currentAgent.hooks.map (fun h => .onStart h st.currentAgent.name)) ++
            st.currentAgent.hooks.map (fun h => .onLlmStart h st.currentAgent.name) ++
            st.currentAgent.hooks.map (fun h => .onLlmEnd h st.currentAgent.name) ++
            (cfg.runHooks.map (fun h => .onAgentEnd h c) ++
              st.currentAgent.hooks.map (fun h => .onEnd h c)),
          tr.sessionWrites ++
            (match cfg.session with
              | some _ => [[(st.messages.getLastD default).toJson,
                  (Message.mk "assistant" c).toJson]]
              | none => [])⟩) := by
  cases hs : cfg.session <;>
    simp [turnStep, hc, he, hs, Trace.addHooks, Trace.addRequest, Trace.addWrite]

lemma turnStep_notTerminal (backend : Nat → CompletionResponse) (cfg : RunConfig)
    (turn : Nat) (st : LoopState) (tr : Trace)
    (hnt : ¬((backend turn).content.isSome ∧ (backend turn).tool_calls = [])) :
    turnStep backend cfg turn st tr =
      (match processToolCalls cfg (backend turn).tool_calls
          (pushAssistantContent st (backend turn).content) (turnPreTrace cfg st tr) with
        | .error ((n, r), tr') => (.done (.error (.toolExecutionFailed n r)), tr')
        | .ok (st2, tr') => (.next st2, tr')) := by
  rcases hc : (backend turn).content with _ | c
  · simp [turnStep, turnPreTrace, hc]
  · rcases hl : (backend turn).tool_calls with _ | ⟨tc, tcs⟩
    · exact absurd ⟨by simp [hc], hl⟩ hnt
    · simp [turnStep, turnPreTrace, hc, hl]

lemma mem_syncSystemMessage (m : Message) (msgs : List Message) (instr : String)
    (hrole : m.role ≠ "system") (hm : m ∈ msgs) : m ∈ syncSystemMessage msgs instr := by
  cases msgs with
  | nil => cases hm
  | cons m0 rest =>
      rcases List.mem_cons.mp hm with rfl | hm
      · have h0 : (m.role == "system") = false := by
          simp only [beq_eq_false_iff_ne]; exact hrole
        by_cases hi : instr.isEmpty <;> simp [syncSystemMessage, h0, hi]
      · by_cases h0 : (m0.role == "system") = true
        · simp [syncSystemMessage, h0, hm]
        · have h0' : (m0.role == "system") = false := by
            cases hb : (m0.role == "system") with
            | true => exact absurd hb h0
            | false => rfl
          by_cases hi : instr.isEmpty <;> simp [syncSystemMessage, h0', hi, hm]

lemma execAfterTool_mem (cfg : RunConfig) (n : String) (st : LoopState) (tr : Trace)
    (res : Json) (ho : Option Agent) (m : Message)
    (hrole : m.role ≠ "system") (hm : m ∈ st.messages) :
    m ∈ (execAfterTool cfg n st tr res ho).1.messages := by
  cases ho with
  | none => simp [execAfterTool]; exact .inl hm
  | some newAgent =>
      simp only [execAfterTool]
      exact mem_syncSystemMessage m _ _ hrole (List.mem_append_left _ hm)

lemma execOneToolCall_ok_mem (cfg : RunConfig) (call : ToolCall) (st : LoopState)
    (tr : Trace) (st' : LoopState) (tr' : Trace) (m : Message)
    (hok : execOneToolCall cfg call st tr = .ok (st', tr'))
    (hrole : m.role ≠ "system") (hm : m ∈ st.messages) : m ∈ st'.messages := by
  cases hr : resolveName st.currentAgent call.name with
  | tool t =>
      cases he : t.exec call.arguments with
      | error e => simp [execOneToolCall, hr, he] at hok
      | ok result =>
          simp only [execOneToolCall, hr, he, Except.ok.injEq] at hok
          have hmem := execAfterTool_mem cfg call.name st
            (tr.addHooks (st.currentAgent.hooks.map (fun h => .onToolStart h call.name)))
            result none m hrole hm
          rw [hok] at hmem
          exact hmem
  | handoff h =>
      cases hg : (h.execute call.arguments).getStr "assistant" with
      | some s =>
          simp only [execOneToolCall, hr, hg, Except.ok.injEq] at hok
          have hmem := execAfterTool_mem cfg call.name st
            (tr.addHooks (st.currentAgent.hooks.map (fun hh => .onToolStart hh call.name)))
            (h.execute call.arguments) (some h.targetAgent) m hrole hm
          rw [hok] at hmem
          exact hmem
      | none =>
          simp only [execOneToolCall, hr, hg, Except.ok.injEq] at hok
          have hmem := execAfterTool_mem cfg call.name st
            (tr.addHooks (st.currentAgent.hooks.map (fun hh => .onToolStart hh call.name)))
            (h.execute call.arguments) none m hrole hm
          rw [hok] at hmem
          exact hmem
  | missing => simp [execOneToolCall, hr] at hok

lemma processToolCalls_ok_mem (cfg : RunConfig) :
    ∀ (calls : List ToolCall) (st : LoopState) (tr : Trace) (st' : LoopState)
      (tr' : Trace) (m : Message),
      processToolCalls cfg calls st tr = .ok (st', tr') →
      m.role ≠ "system" → m ∈ st.messages → m ∈ st'.messages := by
  intro calls
  induction calls with
  | nil =>
      intro st tr st' tr' m hok hrole hm
      simp only [processToolCalls, Except.ok.injEq, Prod.mk.injEq] at hok
      rw [← hok.1]; exact hm
  | cons c rest ih =>
      intro st tr st' tr' m hok hrole hm
      simp only [processToolCalls] at hok
      cases he : execOneToolCall cfg c st tr with
      | error e => rw [he] at hok; cases hok
      | ok p =>
          obtain ⟨st1, tr1⟩ := p
          rw [he] at hok
          exact ih st1 tr1 st' tr' m hok hrole
            (execOneToolCall_ok_mem cfg c st tr st1 tr1 m he hrole hm)

lemma getLastD_cons_concat (a m : Message) (l : List Message) :
    (a :: (l ++ [m])).getLastD default = m := by
  rw [List.getLastD_cons]
  exact List.getLastD_concat a m l

lemma syncSystemMessage_concat_last (xs : List Message) (m : Message) (instr : String)
    (hrole : m.role ≠ "system") :
    syncSystemMessage (xs ++ [m]) instr ≠ [] ∧
      ((syncSystemMessage (xs ++ [m]) instr).getLastD default) = m := by
  cases xs with
  | nil =>
      have h0 : (m.role == "system") = false := by
        simp only [beq_eq_false_iff_ne]; exact hrole
      by_cases hi : instr.isEmpty <;> simp [syncSystemMessage, h0, hi]
  | cons x xs' =>
      by_cases h0 : (x.role == "system") = true
      · simp only [syncSystemMessage, List.cons_append, h0, if_true, ne_eq,
          reduceCtorEq, not_false_eq_true, true_and]
        exact getLastD_cons_concat _ m xs'
      · have h0' : (x.role == "system") = false := by
          cases hb : (x.role == "system") with
          | true => exact absurd hb h0
          | false => rfl
        by_cases hi : instr.isEmpty <;>
          simp only [syncSystemMessage, List.cons_append, h0', Bool.false_eq_true,
            if_false, hi, if_true, ne_eq, reduceCtorEq, not_false_eq_true, true_and] <;>
          exact getLastD_cons_concat _ m xs'

lemma execAfterTool_last (cfg : RunConfig) (n : String) (st : LoopState) (tr : Trace)
    (res : Json) (ho : Option Agent) :
    (execAfterTool cfg n st tr res ho).1.messages ≠ [] ∧
      ((execAfterTool cfg n st tr res ho).1.messages.getLastD default).role = "tool" := by
  cases ho with
  | none => simp [execAfterTool, List.getLastD_concat, toolResultMessage]
  | some newAgent =>
      have h := syncSystemMessage_concat_last st.messages (toolResultMessage n res)
        newAgent.instructions (by simp [toolResultMessage])
      simp only [execAfterTool]
      exact ⟨h.1, by rw [h.2]; rfl⟩

lemma execOneToolCall_ok_last (cfg : RunConfig) (call : ToolCall) (st : LoopState)
    (tr : Trace) (st' : LoopState) (tr' : Trace)
    (hok : execOneToolCall cfg call st tr = .ok (st', tr')) :
    st'.messages ≠ [] ∧ (st'.messages.getLastD default).role = "tool" := by
  cases hr : resolveName st.currentAgent call.name with
  | tool t =>
      cases he : t.exec call.arguments with
      | error e => simp [execOneToolCall, hr, he] at hok
      | ok result =>
          simp only [execOneToolCall, hr, he, Except.ok.injEq] at hok
          have h := execAfterTool_last cfg call.name st
            (tr.addHooks (st.currentAgent.hooks.map (fun h => .onToolStart h call.name)))
            result none
          rw [hok] at h
          exact h
  | handoff h =>
      cases hg : (h.execute call.arguments).getStr "assistant" with
      | some s =>
          simp only [execOneToolCall, hr, hg, Except.ok.injEq] at hok
          have hl := execAfterTool_last cfg call.name st
            (tr.addHooks (st.currentAgent.hooks.map (fun hh => .onToolStart hh call.name)))
            (h.execute call.arguments) (some h.targetAgent)
          rw [hok] at hl
          exact hl
      | none =>
          simp only [execOneToolCall, hr, hg, Except.ok.injEq] at hok
          have hl := execAfterTool_last cfg call.name st
            (tr.addHooks (st.currentAgent.hooks.map (fun hh => .onToolStart hh call.name)))
            (h.execute call.arguments) none
          rw [hok] at hl
          exact hl
  | missing => simp [execOneToolCall, hr] at hok

lemma processToolCalls_ok_last (cfg : RunConfig) :
    ∀ (calls : List ToolCall) (st : LoopState) (tr : Trace) (st' : LoopState)
      (tr' : Trace), calls ≠ [] →
      processToolCalls cfg calls st tr = .ok (st', tr') →
      st'.messages ≠ [] ∧ (st'.messages.getLastD default).role = "tool" := by
  intro calls
  induction calls with
  | nil => intro st tr st' tr' hne; exact absurd rfl hne
  | cons c rest ih =>
      intro st tr st' tr' _ hok
      simp only [processToolCalls] at hok
      cases he : execOneToolCall cfg c st tr with
      | error e => rw [he] at hok; cases hok
      | ok p =>
          obtain ⟨st1, tr1⟩ := p
          rw [he] at hok
          cases rest with
          | nil =>
              simp only [processToolCalls, Except.ok.injEq, Prod.mk.injEq] at hok
              rw [← hok.1]
              exact execOneToolCall_ok_last cfg c st tr st1 tr1 he
          | cons c2 rest2 => exact ih st1 tr1 st' tr' (by simp) hok

lemma turnPreTrace_requests (cfg : RunConfig) (st : LoopState) (tr : Trace) :
    (turnPreTrace cfg st tr).requests = tr.requests ++ [buildRequest st] := by
  simp [turnPreTrace, Trace.addHooks, Trace.addRequest]

lemma turnPreTrace_writes (cfg : RunConfig) (st : LoopState) (tr : Trace) :
    (turnPreTrace cfg st tr).sessionWrites = tr.sessionWrites := by
  simp [turnPreTrace, Trace.addHooks, Trace.addRequest]

lemma runTurns_ok (backend : Nat → CompletionResponse) (cfg : RunConfig) :
    ∀ (fuel turn : Nat) (st : LoopState) (tr : Trace) (r : RunResult),
      (runTurns backend cfg fuel turn st tr).1 = .ok r →
      r.structured_output = none ∧
        ∃ n, (backend n).content = some r.final_output ∧ (backend n).tool_calls = [] := by
  intro fuel
  induction fuel with
  | zero => intro turn st tr r h; simp [runTurns] at h
  | succ f ih =>
      intro turn st tr r h
      by_cases hterm : ((backend turn).content.isSome ∧ (backend turn).tool_calls = [])
      · rcases hc : (backend turn).content with _ | c
        · rw [hc] at hterm; simp at hterm
        · rw [show f + 1 = f.succ from rfl] at h
          simp only [runTurns] at h
          rw [turnStep_terminal backend cfg turn st tr c hc hterm.2] at h
          simp only [Except.ok.injEq] at h
          subst h
          exact ⟨rfl, turn, by rw [hc]; rfl, hterm.2⟩
      · simp only [runTurns] at h
        rw [turnStep_notTerminal backend cfg turn st tr hterm] at h
        cases hp : processToolCalls cfg (backend turn).tool_calls
            (pushAssistantContent st (backend turn).content) (turnPreTrace cfg st tr) with
        | error e =>
            obtain ⟨⟨n0, r0⟩, tr'⟩ := e
            simp only [hp] at h
            simp at h
        | ok p =>
            obtain ⟨st2, tr'⟩ := p
            simp only [hp] at h
            by_cases hge : turn ≥ cfg.maxTurns - 1
            · rw [if_pos hge] at h; simp at h
            · rw [if_neg hge] at h
              exact ih (turn + 1) st2 tr' r h

lemma runTurns_exhaust (backend : Nat → CompletionResponse) (cfg : RunConfig)
    (hterm : ∀ n, ¬((backend n).content.isSome ∧ (backend n).tool_calls = [])) :
    ∀ (fuel turn : Nat) (st : LoopState) (tr : Trace),
      1 ≤ fuel → turn + fuel = cfg.maxTurns →
      isToolFailure (runTurns backend cfg fuel turn st tr).1 = false →
      (runTurns backend cfg fuel turn st tr).1 = .error (.maxTurnsExceeded cfg.maxTurns) ∧
        (runTurns backend cfg fuel turn st tr).2.requests.length =
          tr.requests.length + fuel := by
  intro fuel
  induction fuel with
  | zero => intro turn st tr h1; omega
  | succ f ih =>
      intro turn st tr _ h2 h3
      cases hp : processToolCalls cfg (backend turn).tool_calls
          (pushAssistantContent st (backend turn).content) (turnPreTrace cfg st tr) with
      | error e =>
          obtain ⟨⟨n0, r0⟩, tr'⟩ := e
          have heq : runTurns backend cfg (f + 1) turn st tr =
              (.error (.toolExecutionFailed n0 r0), tr') := by
            simp only [runTurns]
            rw [turnStep_notTerminal backend cfg turn st tr (hterm turn), hp]
          rw [heq] at h3
          simp [isToolFailure] at h3
      | ok p =>
          obtain ⟨st2, tr'⟩ := p
          have htr' : tr'.requests = tr.requests ++ [buildRequest st] := by
            have hf := (processToolCalls_frame cfg (backend turn).tool_calls
              (pushAssistantContent st (backend turn).content) (turnPreTrace cfg st tr)).1
            rw [hp] at hf
            simp only [exTrace] at hf
            rw [hf, turnPreTrace_requests]
          have heq : runTurns backend cfg (f + 1) turn st tr =
              (if turn ≥ cfg.maxTurns - 1 then
                (.error (.maxTurnsExceeded cfg.maxTurns), tr')
              else runTurns backend cfg f (turn + 1) st2 tr') := by
            simp only [runTurns]
            rw [turnStep_notTerminal backend cfg turn st tr (hterm turn), hp]
          by_cases hge : turn ≥ cfg.maxTurns - 1
          · have hf0 : f = 0 := by omega
            subst hf0
            rw [heq, if_pos hge]
            refine ⟨rfl, ?_⟩
            simp [htr']
          · have hf1 : 1 ≤ f := by omega
            rw [heq, if_neg hge] at h3 ⊢
            have hres := ih (turn + 1) st2 tr' hf1 (by omega) h3
            refine ⟨hres.1, ?_⟩
            rw [hres.2, htr']
            simp
            omega

lemma initMessages_last (agent : Agent) (session : Option (List Json)) (input : String) :
    initMessages agent session input ≠ [] ∧
      ((initMessages agent session input).getLastD default) = ⟨"user", input⟩ := by
  unfold initMessages
  constructor
  · simp
  · exact List.getLastD_concat _ _ _

lemma runTurns_ok_writes (backend : Nat → CompletionResponse) (cfg : RunConfig)
    (hist : List Json) (hsess : cfg.session = some hist) :
    ∀ (fuel turn : Nat) (st : LoopState) (tr : Trace) (r : RunResult),
      st.messages ≠ [] → (st.messages.getLastD default).role ≠ "assistant" →
      (runTurns backend cfg fuel turn st tr).1 = .ok r →
      ∃ req : CompletionRequest,
        (runTurns backend cfg fuel turn st tr).2.requests.getLast? = some req ∧
        (req.messages.getLastD default).role ≠ "assistant" ∧
        (runTurns backend cfg fuel turn st tr).2.sessionWrites =
          tr.sessionWrites ++
            [[(req.messages.getLastD default).toJson,
              (Message.mk "assistant" r.final_output).toJson]] := by
  intro fuel
  induction fuel with
  | zero => intro turn st tr r _ _ h; simp [runTurns] at h
  | succ f ih =>
      intro turn st tr r hne hlast h
      by_cases hterm : ((backend turn).content.isSome ∧ (backend turn).tool_calls = [])
      · rcases hc : (backend turn).content with _ | c
        · rw [hc] at hterm; simp at hterm
        · have heq := turnStep_terminal backend cfg turn st tr c hc hterm.2
          simp only [runTurns] at h ⊢
          rw [heq] at h ⊢
          simp only [Except.ok.injEq] at h
          subst h
          refine ⟨buildRequest st, ?_, hlast, ?_⟩
          · exact List.getLast?_concat tr.requests
          · simp [hsess, RunResult.new, buildRequest]
      · simp only [runTurns] at h ⊢
        rw [turnStep_notTerminal backend cfg turn st tr hterm] at h ⊢
        cases hp : processToolCalls cfg (backend turn).tool_calls
            (pushAssistantContent st (backend turn).content) (turnPreTrace cfg st tr) with
        | error e =>
            obtain ⟨⟨n0, r0⟩, tr'⟩ := e
            simp only [hp] at h
            simp at h
        | ok p =>
            obtain ⟨st2, tr'⟩ := p
            simp only [hp] at h ⊢
            by_cases hge : turn ≥ cfg.maxTurns - 1
            · rw [if_pos hge] at h; simp at h
            · rw [if_neg hge] at h ⊢
              have htrw : tr'.sessionWrites = tr.sessionWrites := by
                have hf := (processToolCalls_frame cfg (backend turn).tool_calls
                  (pushAssistantContent st (backend turn).content)
                  (turnPreTrace cfg st tr)).2
                rw [hp] at hf
                simp only [exTrace] at hf
                rw [hf, turnPreTrace_writes]
              have hst2 : st2.messages ≠ [] ∧
                  (st2.messages.getLastD default).role ≠ "assistant" := by
                rcases hl : (backend turn).tool_calls with _ | ⟨tc, tcs⟩
                · rcases hc : (backend turn).content with _ | c
                  · rw [hl, hc] at hp
                    simp only [processToolCalls, pushAssistantContent,
                      Except.ok.injEq, Prod.mk.injEq] at hp
                    rw [← hp.1]
                    exact ⟨hne, hlast⟩
                  · exact absurd ⟨by rw [hc]; rfl, hl⟩ hterm
                · rw [hl] at hp
                  have := processToolCalls_ok_last cfg (tc :: tcs)
                    (pushAssistantContent st (backend turn).content)
                    (turnPreTrace cfg st tr) st2 tr' (by simp) hp
                  exact ⟨this.1, by rw [this.2]; simp⟩
              obtain ⟨req, hq1, hq2, hq3⟩ := ih (turn + 1) st2 tr' r hst2.1 hst2.2 h
              exact ⟨req, hq1, hq2, by rw [hq3, htrw]⟩

/-- Claim C1 counterexample: with `max_turns = 2` and a backend that never
returns a terminal response (its responses always carry a tool call), the
run can still abort with `ToolExecutionFailed` after a single backend call
when the tool call does not resolve — it does not return
`MaxTurnsExceeded(2)` after 2 calls as the claim states. -/
theorem max_turns_claim_counterexample :
    (∀ n, ¬((badToolBackend n).content.isSome ∧ (badToolBackend n).tool_calls = [])) ∧
      (runWithConfig badToolBackend plainAgent "hi" ⟨2, none, []⟩).1 =
        .error (.toolExecutionFailed "nope" "Tool \x27nope\x27 not found") ∧
      (runWithConfig badToolBackend plainAgent "hi" ⟨2, none, []⟩).1 ≠
        .error (.maxTurnsExceeded 2) ∧
      (runWithConfig badToolBackend plainAgent "hi" ⟨2, none, []⟩).2.requests.length = 1 := by
  refine ⟨fun n => by simp [badToolBackend], rfl, ?_, rfl⟩
  intro h
  rw [show (runWithConfig badToolBackend plainAgent "hi" ⟨2, none, []⟩).1 =
    .error (.toolExecutionFailed "nope" "Tool \x27nope\x27 not found") from rfl] at h
  simp at h

/-- Claim C1 (amended): for a run with `max_turns = k` (k ≥ 1) whose
backend never returns a response carrying content together with zero tool
calls, and which does not abort with a tool-execution failure (every tool
call resolves and executes successfully), the run returns
`Err(MaxTurnsExceeded(k))` and the backend's `complete` operation is
invoked exactly `k` times. -/
theorem max_turns_exhaustion (backend : Nat → CompletionResponse) (agent : Agent)
    (input : String) (cfg : RunConfig) (k : Nat) (hk : cfg.maxTurns = k) (h1 : 1 ≤ k)
    (hterm : ∀ n, ¬((backend n).content.isSome ∧ (backend n).tool_calls = []))
    (hnf : isToolFailure (runWithConfig backend agent input cfg).1 = false) :
    (runWithConfig backend agent input cfg).1 = .error (.maxTurnsExceeded k) ∧
      (runWithConfig backend agent input cfg).2.requests.length = k := by
  subst hk
  have h := runTurns_exhaust backend cfg hterm cfg.maxTurns 0
    ⟨initMessages agent cfg.session input, agent, optionalToolDefs (agentToolDefs agent)⟩
    Trace.nil h1 (by omega) hnf
  refine ⟨h.1, ?_⟩
  rw [show (runWithConfig backend agent input cfg).2 =
    (runTurns backend cfg cfg.maxTurns 0
      ⟨initMessages agent cfg.session input, agent, optionalToolDefs (agentToolDefs agent)⟩
      Trace.nil).2 from rfl]
  rw [h.2]
  simp [Trace.nil]

/-- Claim C1 witness: a concrete never-terminal, never-tool-failing run
with `max_turns = 3`. -/
theorem max_turns_exhaustion_witness :
    (∀ n, ¬((constBackend ⟨none, [], none⟩ n).content.isSome ∧
        (constBackend ⟨none, [], none⟩ n).tool_calls = [])) ∧
      (runWithConfig (constBackend ⟨none, [], none⟩) plainAgent "hi" ⟨3, none, []⟩).1 =
        .error (.maxTurnsExceeded 3) ∧
      (runWithConfig (constBackend ⟨none, [], none⟩) plainAgent "hi" ⟨3, none, []⟩).2.requests.length = 3 := by
  have hterm : ∀ n, ¬((constBackend ⟨none, [], none⟩ n).content.isSome ∧
      (constBackend ⟨none, [], none⟩ n).tool_calls = []) := fun n => by simp [constBackend]
  have h := max_turns_exhaustion (constBackend ⟨none, [], none⟩) plainAgent "hi"
    ⟨3, none, []⟩ 3 rfl (by norm_num) hterm rfl
  exact ⟨hterm, h.1, h.2⟩

/-- Claim C6 counterexample: a run of an agent configured with an output
schema that ends with a terminal response returns a `RunResult` whose
structured payload is `None` — it is never populated, contrary to the
claim. -/
theorem structured_output_counterexample :
    (runWithConfig (constBackend ⟨some "\x7b\x22a\x22:1\x7d", [], none⟩) chefAgent "q"
        ⟨100, none, []⟩).1 =
      .ok ⟨"\x7b\x22a\x22:1\x7d", none⟩ := rfl

/-- Claim C6 (amended): every `RunResult` a synchronous run returns has an
absent structured payload: the runner builds results with `RunResult::new`,
which sets `structured_output` to `None`, and never parses the final
content against the output schema. -/
theorem structured_output_always_none (backend : Nat → CompletionResponse)
    (agent : Agent) (input : String) (cfg : RunConfig) (r : RunResult)
    (h : (runWithConfig backend agent input cfg).1 = .ok r) :
    r.structured_output = none :=
  (runTurns_ok backend cfg cfg.maxTurns 0
    ⟨initMessages agent cfg.session input, agent, optionalToolDefs (agentToolDefs agent)⟩
    Trace.nil r h).1

/-- Claim C6 witness: the amended theorem applied to a concrete run. -/
theorem structured_output_always_none_witness :
    (runWithConfig (constBackend ⟨some "hi", [], none⟩) plainAgent "q" ⟨1, none, []⟩).1 =
        .ok (RunResult.new "hi") ∧
      (RunResult.new "hi").structured_output = none :=
  ⟨rfl, structured_output_always_none (constBackend ⟨some "hi", [], none⟩) plainAgent "q"
    ⟨1, none, []⟩ (RunResult.new "hi") rfl⟩

/-- Claim C8 counterexample: on a terminal response the run-level
`on_agent_end` hook fires at position 4, before the agent-level `on_end`
hook at position 5 — the claim states the agent-level hook fires first. -/
theorem end_hook_order_counterexample :
    (runWithConfig (constBackend ⟨some "Hi", [], none⟩) hookedAgent "q"
        ⟨1, none, ["rh"]⟩).2.hookEvents =
        [.onAgentStart "rh" "A", .onStart "ah" "A", .onLlmStart "ah" "A",
          .onLlmEnd "ah" "A", .onAgentEnd "rh" "Hi", .onEnd "ah" "Hi"] ∧
      ((runWithConfig (constBackend ⟨some "Hi", [], none⟩) hookedAgent "q"
        ⟨1, none, ["rh"]⟩).2.hookEvents.indexOf (.onAgentEnd "rh" "Hi") = 4) ∧
      ((runWithConfig (constBackend ⟨some "Hi", [], none⟩) hookedAgent "q"
        ⟨1, none, ["rh"]⟩).2.hookEvents.indexOf (.onEnd "ah" "Hi") = 5) :=
  ⟨rfl, rfl, rfl⟩

/-- Claim C8 (amended): on a terminal response (content present, zero tool
calls) the end hooks are invoked run-level first: every run-level
`on_agent_end` hook fires before any agent-level `on_end` hook, as shown by
the exact hook-event sequence of a terminal loop iteration. -/
theorem end_hooks_run_level_first (backend : Nat → CompletionResponse)
    (cfg : RunConfig) (turn : Nat) (st : LoopState) (tr : Trace) (c : String)
    (hc : (backend turn).content = some c) (he : (backend turn).tool_calls = []) :
    (turnStep backend cfg turn st tr).2.hookEvents =
      tr.hookEvents ++
        (cfg.runHooks.map (fun h => .onAgentStart h st.currentAgent.name) ++
          st.currentAgent.hooks.map (fun h => .onStart h st.currentAgent.name)) ++
        st.currentAgent.hooks.map (fun h => .onLlmStart h st.currentAgent.name) ++
        st.currentAgent.hooks.map (fun h => .onLlmEnd h st.currentAgent.name) ++
        (cfg.runHooks.map (fun h => .onAgentEnd h c) ++
          st.currentAgent.hooks.map (fun h => .onEnd h c)) := by
  rw [turnStep_terminal backend cfg turn st tr c hc he]

/-- Claim C8 witness: the amended theorem applied to a concrete terminal
turn. -/
theorem end_hooks_run_level_first_witness :
    ((constBackend ⟨some "Hi", [], none⟩ 0).content = some "Hi") ∧
      ((constBackend ⟨some "Hi", [], none⟩ 0).tool_calls = []) ∧
      (turnStep (constBackend ⟨some "Hi", [], none⟩) ⟨1, none, ["rh"]⟩ 0
          ⟨[⟨"user", "q"⟩], hookedAgent, none⟩ Trace.nil).2.hookEvents =
        Trace.nil.hookEvents ++
          ((["rh"] : List String).map (fun h => .onAgentStart h hookedAgent.name) ++
            hookedAgent.hooks.map (fun h => .onStart h hookedAgent.name)) ++
          hookedAgent.hooks.map (fun h => .onLlmStart h hookedAgent.name) ++
          hookedAgent.hooks.map (fun h => .onLlmEnd h hookedAgent.name) ++
          ((["rh"] : List String).map (fun h => .onAgentEnd h "Hi") ++
            hookedAgent.hooks.map (fun h => .onEnd h "Hi")) :=
  ⟨rfl, rfl, end_hooks_run_level_first (constBackend ⟨some "Hi", [], none⟩)
    ⟨1, none, ["rh"]⟩ 0 ⟨[⟨"user", "q"⟩], hookedAgent, none⟩ Trace.nil "Hi" rfl rfl⟩

/-- Claim C9: (first part) a synchronous run with a configured session that
ends with a tool-call-free terminal response performs exactly one session
write over the whole run, writing exactly the two-element pair of the last
message of the log before the terminal response — the last message of the
final backend request, which is never an assistant message — followed by
the new assistant message; (second part) a run whose first backend response
is terminal returns after exactly one backend call, for every
`max_turns ≥ 1` (with `max_turns = 0` the loop never runs, so there is no
first response). -/
theorem terminal_session_write_unique :
    (∀ (backend : Nat → CompletionResponse) (agent : Agent) (input : String)
        (cfg : RunConfig) (hist : List Json) (r : RunResult),
      cfg.session = some hist →
      (runWithConfig backend agent input cfg).1 = .ok r →
      ∃ req : CompletionRequest,
        (runWithConfig backend agent input cfg).2.requests.getLast? = some req ∧
        (req.messages.getLastD default).role ≠ "assistant" ∧
        (runWithConfig backend agent input cfg).2.sessionWrites =
          [[(req.messages.getLastD default).toJson,
            (Message.mk "assistant" r.final_output).toJson]]) ∧
    (∀ (backend : Nat → CompletionResponse) (agent : Agent) (input : String)
        (cfg : RunConfig) (c : String),
      1 ≤ cfg.maxTurns → (backend 0).content = some c → (backend 0).tool_calls = [] →
      (runWithConfig backend agent input cfg).1 = .ok (RunResult.new c) ∧
        (runWithConfig backend agent input cfg).2.requests.length = 1) := by
  constructor
  · intro backend agent input cfg hist r hsess hok
    have hinit := initMessages_last agent cfg.session input
    have h := runTurns_ok_writes backend cfg hist hsess cfg.maxTurns 0
      ⟨initMessages agent cfg.session input, agent, optionalToolDefs (agentToolDefs agent)⟩
      Trace.nil r hinit.1 (by rw [hinit.2]; simp) hok
    obtain ⟨req, hq1, hq2, hq3⟩ := h
    refine ⟨req, hq1, hq2, ?_⟩
    rw [show (runWithConfig backend agent input cfg).2 =
      (runTurns backend cfg cfg.maxTurns 0
        ⟨initMessages agent cfg.session input, agent, optionalToolDefs (agentToolDefs agent)⟩
        Trace.nil).2 from rfl]
    rw [hq3]
    simp [Trace.nil]
  · intro backend agent input cfg c h1 hc he
    rcases hm : cfg.maxTurns with _ | f
    · omega
    · have heq : runWithConfig backend agent input cfg =
          runTurns backend cfg (f + 1) 0
            ⟨initMessages agent cfg.session input, agent,
              optionalToolDefs (agentToolDefs agent)⟩ Trace.nil := by
        rw [runWithConfig, hm]
      rw [heq]
      simp only [runTurns]
      rw [turnStep_terminal backend cfg 0 _ Trace.nil c hc he]
      exact ⟨rfl, by simp [Trace.nil]⟩

/-- Claim C9 witness: a concrete one-turn run with a session. -/
theorem terminal_session_write_unique_witness :
    ((⟨5, some [], []⟩ : RunConfig).session = some []) ∧
      ((runWithConfig (constBackend ⟨some "Hello", [], none⟩) plainAgent "hi"
          ⟨5, some [], []⟩).1 = .ok (RunResult.new "Hello")) ∧
      (∃ req : CompletionRequest,
        (runWithConfig (constBackend ⟨some "Hello", [], none⟩) plainAgent "hi"
            ⟨5, some [], []⟩).2.requests.getLast? = some req ∧
        (req.messages.getLastD default).role ≠ "assistant" ∧
        (runWithConfig (constBackend ⟨some "Hello", [], none⟩) plainAgent "hi"
            ⟨5, some [], []⟩).2.sessionWrites =
          [[(req.messages.getLastD default).toJson,
            (Message.mk "assistant" (RunResult.new "Hello").final_output).toJson]]) ∧
      (runWithConfig (constBackend ⟨some "Hello", [], none⟩) plainAgent "hi"
          ⟨5, some [], []⟩).2.requests.length = 1 := by
  refine ⟨rfl, rfl, ?_, ?_⟩
  · exact terminal_session_write_unique.1 (constBackend ⟨some "Hello", [], none⟩)
      plainAgent "hi" ⟨5, some [], []⟩ [] (RunResult.new "Hello") rfl rfl
  · exact (terminal_session_write_unique.2 (constBackend ⟨some "Hello", [], none⟩)
      plainAgent "hi" ⟨5, some [], []⟩ "Hello" (by norm_num) rfl rfl).2

/-- Claim C2: a loop iteration returns the final answer iff the backend
response has content present and an empty tool-call list; when a response
carries both content and tool calls, the content is appended to the log as
an assistant-role message and the loop continues; and any returned final
output is the content of some tool-call-free response, so content
accompanied by tool calls is never the final answer. -/
theorem terminal_iff_content_no_tool_calls :
    (∀ (backend : Nat → CompletionResponse) (cfg : RunConfig) (turn : Nat)
        (st : LoopState) (tr : Trace),
      (∃ r, (turnStep backend cfg turn st tr).1 = .done (.ok r)) ↔
        ((backend turn).content.isSome ∧ (backend turn).tool_calls = [])) ∧
    (∀ (backend : Nat → CompletionResponse) (cfg : RunConfig) (turn : Nat)
        (st : LoopState) (tr : Trace) (c : String) (st' : LoopState),
      (backend turn).content = some c → (backend turn).tool_calls ≠ [] →
      (turnStep backend cfg turn st tr).1 = .next st' →
      Message.mk "assistant" c ∈ st'.messages) ∧
    (∀ (backend : Nat → CompletionResponse) (agent : Agent) (input : String)
        (cfg : RunConfig) (r : RunResult),
      (runWithConfig backend agent input cfg).1 = .ok r →
      ∃ n, (backend n).content = some r.final_output ∧ (backend n).tool_calls = []) := by
  refine ⟨?_, ?_, ?_⟩
  · intro backend cfg turn st tr
    constructor
    · rintro ⟨r, hr⟩
      by_cases hterm : ((backend turn).content.isSome ∧ (backend turn).tool_calls = [])
      · exact hterm
      · exfalso
        rw [turnStep_notTerminal backend cfg turn st tr hterm] at hr
        cases hp : processToolCalls cfg (backend turn).tool_calls
            (pushAssistantContent st (backend turn).content) (turnPreTrace cfg st tr) with
        | error e => obtain ⟨⟨n0, r0⟩, tr'⟩ := e; simp only [hp] at hr; simp at hr
        | ok p => obtain ⟨st2, tr'⟩ := p; simp only [hp] at hr; simp at hr
    · rintro ⟨hs, he⟩
      rcases hc : (backend turn).content with _ | c
      · rw [hc] at hs; simp at hs
      · exact ⟨RunResult.new c, by rw [turnStep_terminal backend cfg turn st tr c hc he]⟩
  · intro backend cfg turn st tr c st' hc hne hnext
    have hterm : ¬((backend turn).content.isSome ∧ (backend turn).tool_calls = []) :=
      fun hh => hne hh.2
    rw [turnStep_notTerminal backend cfg turn st tr hterm] at hnext
    cases hp : processToolCalls cfg (backend turn).tool_calls
        (pushAssistantContent st (backend turn).content) (turnPreTrace cfg st tr) with
    | error e => obtain ⟨⟨n0, r0⟩, tr'⟩ := e; simp only [hp] at hnext; simp at hnext
    | ok p =>
        obtain ⟨st2, tr'⟩ := p
        simp only [hp] at hnext
        simp only [TurnOutcome.next.injEq] at hnext
        subst hnext
        refine processToolCalls_ok_mem cfg (backend turn).tool_calls
          (pushAssistantContent st (backend turn).content) (turnPreTrace cfg st tr)
          st2 tr' (Message.mk "assistant" c) hp (by simp) ?_
        rw [hc]
        simp [pushAssistantContent]
  · intro backend agent input cfg r h
    exact (runTurns_ok backend cfg cfg.maxTurns 0
      ⟨initMessages agent cfg.session input, agent, optionalToolDefs (agentToolDefs agent)⟩
      Trace.nil r h).2

/-- Claim C2 witness: the three parts applied to concrete turns and a
concrete run. -/
theorem terminal_iff_content_no_tool_calls_witness :
    (∃ r, (turnStep (constBackend ⟨some "Hello", [], none⟩) ⟨1, none, []⟩ 0
        ⟨[⟨"user", "q"⟩], plainAgent, none⟩ Trace.nil).1 = .done (.ok r)) ∧
      (∃ st', (turnStep toolCallBackend ⟨5, none, []⟩ 0
          ⟨[⟨"user", "q"⟩], toolAgent, none⟩ Trace.nil).1 = .next st' ∧
        Message.mk "assistant" "use" ∈ st'.messages) ∧
      (∃ n, (toolCallBackend n).content =
          some (RunResult.new "done").final_output ∧ (toolCallBackend n).tool_calls = []) := by
  refine ⟨?_, ?_, ?_⟩
  · exact (terminal_iff_content_no_tool_calls.1 (constBackend ⟨some "Hello", [], none⟩)
      ⟨1, none, []⟩ 0 ⟨[⟨"user", "q"⟩], plainAgent, none⟩ Trace.nil).mpr ⟨rfl, rfl⟩
  · refine ⟨_, rfl, ?_⟩
    exact terminal_iff_content_no_tool_calls.2.1 toolCallBackend ⟨5, none, []⟩ 0
      ⟨[⟨"user", "q"⟩], toolAgent, none⟩ Trace.nil "use" _ rfl (by simp [toolCallBackend]) rfl
  · exact terminal_iff_content_no_tool_calls.2.2 toolCallBackend toolAgent "q"
      ⟨5, none, []⟩ (RunResult.new "done") rfl

/-- Claim C5 counterexample: a streaming round whose chunks carry no
content and no tool-call fragments still ends the run (the loop breaks),
although the claim states the run terminates only when the accumulated
content is non-empty. -/
theorem stream_break_counterexample :
    ((streamTurn (fun _ => none) [.ok ⟨none, [], some "stop"⟩]
        ⟨[⟨"user", "q"⟩], plainAgent, none, ""⟩).2.2 = true) ∧
      (accumChunks [.ok ⟨none, [], some "stop"⟩] (⟨"", [], []⟩ : StreamAccum)).content = "" ∧
      (accumChunks [.ok ⟨none, [], some "stop"⟩] (⟨"", [], []⟩ : StreamAccum)).toolCalls = [] :=
  ⟨rfl, rfl, rfl⟩

/-- Claim C5 (amended): a streaming round breaks the turn loop exactly when
its accumulated tool-call vector is empty, regardless of whether the
accumulated text content is empty or not; with any tool-call entry present
the loop proceeds to the next turn. -/
theorem stream_round_breaks_iff_no_tool_calls (parse : String → Option Json)
    (chunks : List (Except String StreamChunk)) (st : StreamState) :
    (streamTurn parse chunks st).2.2 =
      (accumChunks chunks (⟨"", [], []⟩ : StreamAccum)).toolCalls.isEmpty := by
  cases hb : (accumChunks chunks (⟨"", [], []⟩ : StreamAccum)).toolCalls.isEmpty <;>
    cases hc : (accumChunks chunks (⟨"", [], []⟩ : StreamAccum)).content.isEmpty <;>
    simp [streamTurn, hb, hc]

lemma get?_set_self {α : Type} :
    ∀ (v : List α) (i : Nat) (a : α), i < v.length → (v.set i a).get? i = some a
  | [], i, _, h => absurd h (by simp)
  | _ :: _, 0, _, _ => rfl
  | _ :: v, i + 1, a, h => get?_set_self v i a (by simpa using h)

lemma padToIndex_of_lt (v : List ToolCallAcc) (i : Nat) (h : i < v.length) :
    padToIndex v i = v := by
  unfold padToIndex
  rw [show i + 1 - v.length = 0 from by omega]
  simp

lemma padToIndex_length (v : List ToolCallAcc) (i : Nat) :
    i < (padToIndex v i).length := by
  unfold padToIndex
  simp
  omega

lemma padToIndex_get?_of_ge (v : List ToolCallAcc) (i : Nat) (h : v.length ≤ i) :
    (padToIndex v i).get? i = some ("", "", "") := by
  unfold padToIndex
  rw [List.get?_eq_getElem?, List.getElem?_append_right h, List.getElem?_replicate]
  simp
  omega

lemma applyToolCallDelta_get (v : List ToolCallAcc) (d : ToolCallDelta)
    (x y z : String) (hv : (padToIndex v d.index).get? d.index = some (x, y, z)) :
    (applyToolCallDelta v d).get? d.index =
      some (x ++ d.id.getD "", y ++ d.name.getD "", z ++ d.arguments.getD "") := by
  simp only [applyToolCallDelta]
  rw [hv]
  exact get?_set_self _ _ _ (padToIndex_length v d.index)

lemma applyDeltas_concat (i : Nat) :
    ∀ (ds : List ToolCallDelta) (v : List ToolCallAcc) (x y z : String),
      (∀ d ∈ ds, d.index = i) → v.get? i = some (x, y, z) →
      (ds.foldl applyToolCallDelta v).get? i =
        some (x ++ deltaConcat (fun d => d.id) ds,
              y ++ deltaConcat (fun d => d.name) ds,
              z ++ deltaConcat (fun d => d.arguments) ds) := by
  intro ds
  induction ds with
  | nil => intro v x y z _ hv; simpa [deltaConcat] using hv
  | cons d ds ih =>
      intro v x y z hall hv
      have hd : d.index = i := hall d (by simp)
      have hlt : i < v.length := by
        rcases List.get?_eq_some.mp hv with ⟨h1, _⟩; exact h1
      have h1 := applyToolCallDelta_get v d x y z
        (by rw [hd, padToIndex_of_lt v i hlt, hv])
      rw [hd] at h1
      simp only [List.foldl_cons]
      rw [ih (applyToolCallDelta v d) (x ++ d.id.getD "") (y ++ d.name.getD "")
        (z ++ d.arguments.getD "") (fun d' hd' => hall d' (by simp [hd'])) h1]
      simp [deltaConcat, String.append_assoc]

lemma accumChunks_events_filter :
    ∀ (chunks : List (Except String StreamChunk)) (acc : StreamAccum),
      (accumChunks chunks acc).events.filter StreamEvent.isToolCalled =
        acc.events.filter StreamEvent.isToolCalled := by
  intro chunks
  induction chunks with
  | nil => intro acc; rfl
  | cons c rest ih =>
      intro acc
      cases c with
      | error e => rfl
      | ok ch =>
          cases hd : ch.delta with
          | none =>
              cases hf : ch.finish_reason.isSome <;>
                simp [accumChunks, hd, hf, ih]
          | some s =>
              cases hf : ch.finish_reason.isSome <;>
                simp [accumChunks, hd, hf, ih, List.filter_append,
                  StreamEvent.isToolCalled]

lemma streamAfterTool_filter (name : String) (result : Json) (target : Option Agent)
    (st : StreamState) (evs : List StreamEvent) (ho : Bool) :
    ((streamAfterTool name result target st evs ho).2.1).filter StreamEvent.isToolCalled =
      evs.filter StreamEvent.isToolCalled := by
  cases target <;>
    simp [streamAfterTool, List.filter_append, StreamEvent.isToolCalled]

lemma streamDispatchOne_filter (parse : String → Option Json) (st : StreamState)
    (evs : List StreamEvent) (ho : Bool) (e : ToolCallAcc) :
    ((streamDispatchOne parse st evs ho e).2.1).filter StreamEvent.isToolCalled =
      evs.filter StreamEvent.isToolCalled ++ (dispatchEventOf parse e).toList := by
  obtain ⟨eid, ename, eargs⟩ := e
  cases hn : ename.isEmpty with
  | true => simp [streamDispatchOne, dispatchEventOf, hn]
  | false =>
      cases hr : resolveName st.currentAgent ename with
      | tool t =>
          cases he : t.exec ((parse eargs).getD (.obj [])) with
          | error err =>
              simp [streamDispatchOne, dispatchEventOf, hn, hr, he,
                List.filter_append, StreamEvent.isToolCalled]
          | ok res =>
              simp [streamDispatchOne, dispatchEventOf, hn, hr, he,
                streamAfterTool_filter, List.filter_append, StreamEvent.isToolCalled]
      | handoff h =>
          cases hg : (h.execute ((parse eargs).getD (.obj []))).getStr "assistant" <;>
            simp [streamDispatchOne, dispatchEventOf, hn, hr, hg,
              streamAfterTool_filter, List.filter_append, StreamEvent.isToolCalled]
      | missing =>
          simp [streamDispatchOne, dispatchEventOf, hn, hr,
            List.filter_append, StreamEvent.isToolCalled]

lemma streamDispatchList_filter (parse : String → Option Json) :
    ∀ (entries : List ToolCallAcc) (st : StreamState) (evs : List StreamEvent)
      (ho : Bool),
      ((streamDispatchList parse entries st evs ho).2.1).filter StreamEvent.isToolCalled =
        evs.filter StreamEvent.isToolCalled ++
          entries.filterMap (dispatchEventOf parse) := by
  intro entries
  induction entries with
  | nil => intro st evs ho; simp [streamDispatchList]
  | cons e rest ih =>
      intro st evs ho
      simp only [streamDispatchList]
      rw [ih]
      rw [streamDispatchOne_filter]
      cases hde : dispatchEventOf parse e <;> simp [hde]

lemma streamTurn_toolCalled_events (parse : String → Option Json)
    (chunks : List (Except String StreamChunk)) (st : StreamState) :
    ((streamTurn parse chunks st).2.1).filter StreamEvent.isToolCalled =
      (accumChunks chunks (⟨"", [], []⟩ : StreamAccum)).toolCalls.filterMap
        (dispatchEventOf parse) := by
  have hacc := accumChunks_events_filter chunks (⟨"", [], []⟩ : StreamAccum)
  cases hb : (accumChunks chunks (⟨"", [], []⟩ : StreamAccum)).toolCalls.isEmpty with
  | true =>
      have hnil : (accumChunks chunks (⟨"", [], []⟩ : StreamAccum)).toolCalls = [] := by
        simpa using hb
      cases hc : (accumChunks chunks (⟨"", [], []⟩ : StreamAccum)).content.isEmpty <;>
        simp [streamTurn, hb, hc, hnil, hacc, List.filter_append,
          StreamEvent.isToolCalled]
  | false =>
      cases hc : (accumChunks chunks (⟨"", [], []⟩ : StreamAccum)).content.isEmpty <;>
        simp [streamTurn, hb, hc, streamDispatchList_filter, hacc,
          List.filter_append, StreamEvent.isToolCalled]

/-- Claim C3: (reassembly) fragments sharing one positional index are
concatenated in arrival order into the three buffers id/name/arguments;
(dispatch) after the stream ends, the emitted tool-call events are exactly
one per accumulated entry with a non-empty name, with the argument string
parsed by `parse` and the empty object substituted on failure, entries with
an empty name skipped; (scenario) the fragments
`(index 0, name \x22f\x22)`, `(index 0, arguments \x22\x7b\x7d\x22)`
followed by a finish reason yield exactly one ToolCall event with name
`f` and empty-object arguments. -/
theorem stream_accumulation_dispatch :
    (∀ (i : Nat) (ds : List ToolCallDelta), ds ≠ [] → (∀ d ∈ ds, d.index = i) →
      (ds.foldl applyToolCallDelta []).get? i =
        some (deltaConcat (fun d => d.id) ds, deltaConcat (fun d => d.name) ds,
          deltaConcat (fun d => d.arguments) ds)) ∧
    (∀ (parse : String → Option Json) (chunks : List (Except String StreamChunk))
        (st : StreamState),
      ((streamTurn parse chunks st).2.1).filter StreamEvent.isToolCalled =
        (accumChunks chunks (⟨"", [], []⟩ : StreamAccum)).toolCalls.filterMap
          (dispatchEventOf parse)) ∧
    (∀ (parse : String → Option Json) (st : StreamState),
      parse "\x7b\x7d" = some (.obj []) →
      ((streamTurn parse chunksScenario st).2.1).filter StreamEvent.isToolCalled =
        [.toolCalled "f" (.obj [])]) := by
  refine ⟨?_, streamTurn_toolCalled_events, ?_⟩
  · intro i ds hne hall
    rcases ds with _ | ⟨d, ds'⟩
    · exact absurd rfl hne
    · have hd : d.index = i := hall d (by simp)
      have h1 := applyToolCallDelta_get [] d "" "" ""
        (padToIndex_get?_of_ge [] d.index (by simp))
      rw [hd] at h1
      simp only [List.foldl_cons]
      rw [applyDeltas_concat i ds' (applyToolCallDelta [] d) _ _ _
        (fun d' hd' => hall d' (by simp [hd'])) h1]
      rfl
  · intro parse st hp
    rw [streamTurn_toolCalled_events]
    rw [show (accumChunks chunksScenario (⟨"", [], []⟩ : StreamAccum)).toolCalls =
      [("", "f", "\x7b\x7d")] from rfl]
    rw [List.filterMap_cons]
    have hde : dispatchEventOf parse ("", "f", "\x7b\x7d") =
        some (.toolCalled "f" (.obj [])) := by
      simp only [dispatchEventOf, hp]
      rfl
    rw [hde]
    rfl

/-- Claim C3 witness: the reassembly at two concrete fragments of index 0,
and the scenario with a concrete parser. -/
theorem stream_accumulation_dispatch_witness :
    (([⟨0, some "ab", none, none⟩, ⟨0, some "cd", none, some "x"⟩] :
        List ToolCallDelta) ≠ []) ∧
      (∀ d ∈ ([⟨0, some "ab", none, none⟩, ⟨0, some "cd", none, some "x"⟩] :
        List ToolCallDelta), d.index = 0) ∧
      (([⟨0, some "ab", none, none⟩, ⟨0, some "cd", none, some "x"⟩] :
          List ToolCallDelta).foldl applyToolCallDelta []).get? 0 =
        some (deltaConcat (fun d => d.id)
            [⟨0, some "ab", none, none⟩, ⟨0, some "cd", none, some "x"⟩],
          deltaConcat (fun d => d.name)
            [⟨0, some "ab", none, none⟩, ⟨0, some "cd", none, some "x"⟩],
          deltaConcat (fun d => d.arguments)
            [⟨0, some "ab", none, none⟩, ⟨0, some "cd", none, some "x"⟩]) ∧
      (parseScenario "\x7b\x7d" = some (.obj [])) ∧
      ((streamTurn parseScenario chunksScenario
          ⟨[], plainAgent, none, ""⟩).2.1).filter StreamEvent.isToolCalled =
        [.toolCalled "f" (.obj [])] := by
  have h1 : (([⟨0, some "ab", none, none⟩, ⟨0, some "cd", none, some "x"⟩] :
      List ToolCallDelta) ≠ []) := by simp
  have h2 : ∀ d ∈ ([⟨0, some "ab", none, none⟩, ⟨0, some "cd", none, some "x"⟩] :
      List ToolCallDelta), d.index = 0 := by decide
  have hp : parseScenario "\x7b\x7d" = some (.obj []) := rfl
  exact ⟨h1, h2, stream_accumulation_dispatch.1 0 _ h1 h2, hp,
    stream_accumulation_dispatch.2.2 parseScenario ⟨[], plainAgent, none, ""⟩ hp⟩

lemma optionalToolDefs_getD (defs : List ToolDefinition) :
    (optionalToolDefs defs).getD [] = defs := by
  by_cases he : defs.isEmpty
  · have hnil : defs = [] := by simpa using he
    simp [optionalToolDefs, he, hnil]
  · have he' : defs.isEmpty = false := by
      cases hb : defs.isEmpty with
      | true => exact absurd hb he
      | false => rfl
    simp [optionalToolDefs, he']

/-- Claim C4: when a tool call resolves to a handoff (no ordinary tool has
its name, a handoff entry does) whose execution result carries the
target-agent marker, the step succeeds and afterwards: the current agent is
the target; the tool definitions sent on the next backend request are
exactly the target's tools followed by its handoffs; the system message at
index 0 is replaced with the target's instructions when index 0 has role
`system`, else such a message is inserted at index 0 when the instructions
are non-empty; and subsequent tool-call names resolve against the new
agent only. -/
theorem handoff_transition (cfg : RunConfig) (call : ToolCall) (st : LoopState)
    (tr : Trace) (h : Handoff)
    (htool : st.currentAgent.tools.find? (fun t => t.name == call.name) = none)
    (hhand : st.currentAgent.handoffs.find? (fun hh => hh.name == call.name) = some h) :
    (h.execute call.arguments).getStr "assistant" = some h.targetAgent.name ∧
    ∃ st' tr', execOneToolCall cfg call st tr = .ok (st', tr') ∧
      st'.currentAgent = h.targetAgent ∧
      (buildRequest st').tools = optionalToolDefs (agentToolDefs h.targetAgent) ∧
      (buildRequest st').tools.getD [] =
        h.targetAgent.tools.map toolDefOfTool ++
          h.targetAgent.handoffs.map toolDefOfHandoff ∧
      (∀ name, resolveName st'.currentAgent name = resolveName h.targetAgent name) ∧
      st'.messages = syncSystemMessage
        (st.messages ++ [toolResultMessage call.name (h.execute call.arguments)])
        h.targetAgent.instructions ∧
      (∀ m0 ms,
        st.messages ++ [toolResultMessage call.name (h.execute call.arguments)] =
          m0 :: ms →
        (m0.role = "system" →
          st'.messages = ⟨m0.role, h.targetAgent.instructions⟩ :: ms) ∧
        (m0.role ≠ "system" → h.targetAgent.instructions ≠ "" →
          st'.messages = ⟨"system", h.targetAgent.instructions⟩ :: m0 :: ms) ∧
        (m0.role ≠ "system" → h.targetAgent.instructions = "" →
          st'.messages = m0 :: ms)) := by
  have hr : resolveName st.currentAgent call.name = .handoff h := by
    unfold resolveName
    rw [htool, hhand]
  refine ⟨rfl, ⟨syncSystemMessage
      (st.messages ++ [toolResultMessage call.name (h.execute call.arguments)])
      h.targetAgent.instructions, h.targetAgent,
      optionalToolDefs (agentToolDefs h.targetAgent)⟩,
    ((tr.addHooks (st.currentAgent.hooks.map (fun hh => .onToolStart hh call.name))).addHooks
      (st.currentAgent.hooks.map (fun hh => .onToolEnd hh call.name))).addHooks
      (cfg.runHooks.map (fun hh => .onHandoffRun hh st.currentAgent.name h.targetAgent.name) ++
        st.currentAgent.hooks.map
          (fun hh => .onHandoffAgent hh st.currentAgent.name h.targetAgent.name)),
    ?_, rfl, rfl, ?_, fun _ => rfl, rfl, ?_⟩
  · simp only [execOneToolCall, hr, execAfterTool]
    rfl
  · show (optionalToolDefs (agentToolDefs h.targetAgent)).getD [] = _
    rw [optionalToolDefs_getD]
    rfl
  · intro m0 ms hms
    refine ⟨?_, ?_, ?_⟩
    · intro hrole
      rw [hms]
      simp [syncSystemMessage, hrole]
    · intro hrole hinstr
      have hb : (m0.role == "system") = false := by
        simp only [beq_eq_false_iff_ne]; exact hrole
      have hie : h.targetAgent.instructions.isEmpty = false := by
        cases hI : h.targetAgent.instructions.isEmpty with
        | true => exact absurd ((String.isEmpty_iff _).mp hI) hinstr
        | false => rfl
      rw [hms]
      simp [syncSystemMessage, hb, hie]
    · intro hrole hinstr
      have hb : (m0.role == "system") = false := by
        simp only [beq_eq_false_iff_ne]; exact hrole
      have hie : h.targetAgent.instructions.isEmpty = true :=
        (String.isEmpty_iff _).mpr hinstr
      rw [hms]
      simp [syncSystemMessage, hb, hie]

/-- Claim C4 witness: a concrete handoff from `sourceAgent` to
`targetFixture` through the handoff tool named `go`. -/
theorem handoff_transition_witness :
    (sourceAgent.tools.find? (fun t => t.name == "go") = none) ∧
      (sourceAgent.handoffs.find? (fun hh => hh.name == "go") = some handoffGo) ∧
      ((handoffGo.execute (.obj [])).getStr "assistant" =
        some handoffGo.targetAgent.name) ∧
      (∃ st' tr', execOneToolCall ⟨5, none, ["rh"]⟩ ⟨"1", "go", .obj []⟩
          ⟨[⟨"user", "q"⟩], sourceAgent, some (agentToolDefs sourceAgent)⟩ Trace.nil =
            .ok (st', tr') ∧
        st'.currentAgent = handoffGo.targetAgent ∧
        (buildRequest st').tools = optionalToolDefs (agentToolDefs handoffGo.targetAgent)) := by
  have h := handoff_transition ⟨5, none, ["rh"]⟩ ⟨"1", "go", .obj []⟩
    ⟨[⟨"user", "q"⟩], sourceAgent, some (agentToolDefs sourceAgent)⟩ Trace.nil
    handoffGo rfl rfl
  obtain ⟨st', tr', h1, h2, h3, _⟩ := h.2
  exact ⟨rfl, rfl, h.1, st', tr', h1, h2, h3⟩

/-- Claim C7 counterexample: seeding from a session history that contains
a system-role item produces a log with two system messages, the second not
at index 0 — the invariant does not hold after seeding for arbitrary
histories. -/
theorem system_invariant_counterexample :
    ¬ systemInvariant (initMessages (.mk "A" "inst" "g" [] [] [] none none)
        (some [sysHistItem]) "q") ∧
      initMessages (.mk "A" "inst" "g" [] [] [] none none) (some [sysHistItem]) "q" =
        [⟨"system", "inst"⟩, ⟨"system", "h"⟩, ⟨"user", "q"⟩] := by
  refine ⟨?_, rfl⟩
  intro hinv
  exact hinv ⟨"system", "h"⟩
    (by rw [show initMessages (.mk "A" "inst" "g" [] [] [] none none)
      (some [sysHistItem]) "q" = [⟨"system", "inst"⟩, ⟨"system", "h"⟩, ⟨"user", "q"⟩]
      from rfl]; simp) rfl

/-- Claim C7 (amended): provided no session-history item deserializes to a
system-role message, every message-log state of the turn loop satisfies
the invariant (any system message sits at index 0, hence at most one):
it holds after initial construction including seeding, it is preserved by
every append of a non-system message during a turn, and it is preserved by
handoff resynchronization. -/
theorem system_invariant_preserved :
    (∀ (agent : Agent) (session : Option (List Json)) (input : String),
      (∀ m ∈ (session.getD []).filterMap Message.fromJson, m.role ≠ "system") →
      systemInvariant (initMessages agent session input)) ∧
    (∀ (msgs : List Message) (m : Message), systemInvariant msgs →
      m.role ≠ "system" → systemInvariant (msgs ++ [m])) ∧
    (∀ (msgs : List Message) (instr : String), systemInvariant msgs →
      systemInvariant (syncSystemMessage msgs instr)) ∧
    (∀ msgs : List Message, systemInvariant msgs →
      msgs.countP (fun m => m.role == "system") ≤ 1) := by
  refine ⟨?_, ?_, ?_, ?_⟩
  · intro agent session input hh
    cases session with
    | none =>
        intro m hm
        have hsub : m ∈ ([] : List Message) ++ [(⟨"user", input⟩ : Message)] := by
          cases hi : agent.instructions.isEmpty with
          | true =>
              simp only [initMessages, hi, if_true, List.nil_append] at hm
              exact List.mem_of_mem_drop hm
          | false =>
              simp only [initMessages, hi, Bool.false_eq_true, if_false,
                List.singleton_append, List.drop_succ_cons, List.drop_zero] at hm
              exact hm
        simp only [List.nil_append, List.mem_singleton] at hsub
        subst hsub
        simp
    | some items =>
        intro m hm
        have hsub : m ∈ items.filterMap Message.fromJson ++
            [(⟨"user", input⟩ : Message)] := by
          cases hi : agent.instructions.isEmpty with
          | true =>
              simp only [initMessages, hi, if_true, List.nil_append] at hm
              exact List.mem_of_mem_drop hm
          | false =>
              simp only [initMessages, hi, Bool.false_eq_true, if_false,
                List.singleton_append, List.drop_succ_cons, List.drop_zero] at hm
              exact hm
        rcases List.mem_append.mp hsub with hm' | hm'
        · exact hh m hm'
        · rw [List.mem_singleton] at hm'
          subst hm'
          simp
  · intro msgs m hinv hrole
    intro m' hm'
    cases msgs with
    | nil => simp at hm'
    | cons x xs =>
        simp only [List.cons_append, List.drop_succ_cons, List.drop_zero,
          List.mem_append, List.mem_singleton] at hm'
        rcases hm' with hm' | rfl
        · exact hinv m' (by simpa using hm')
        · exact hrole
  · intro msgs instr hinv
    cases msgs with
    | nil =>
        unfold syncSystemMessage
        cases hi : instr.isEmpty <;> intro m hm <;> simp at hm
    | cons m0 rest =>
        by_cases h0 : (m0.role == "system") = true
        · intro m hm
          simp only [syncSystemMessage, h0, if_true, List.drop_succ_cons,
            List.drop_zero] at hm
          exact hinv m (by simpa using hm)
        · have h0' : (m0.role == "system") = false := by
            cases hb : (m0.role == "system") with
            | true => exact absurd hb h0
            | false => rfl
          by_cases hi : instr.isEmpty
          · intro m hm
            simp only [syncSystemMessage, h0', Bool.false_eq_true, if_false,
              hi, if_true] at hm
            exact hinv m hm
          · have hi' : instr.isEmpty = false := by
              cases hb : instr.isEmpty with
              | true => exact absurd hb hi
              | false => rfl
            intro m hm
            simp only [syncSystemMessage, h0', hi', Bool.false_eq_true, if_false,
              List.drop_succ_cons, List.drop_zero, List.mem_cons] at hm
            rcases hm with rfl | hm
            · simpa using h0'
            · exact hinv m (by simpa using hm)
  · intro msgs hinv
    cases msgs with
    | nil => simp
    | cons m0 rest =>
        have hz : rest.countP (fun m => m.role == "system") = 0 := by
          rw [List.countP_eq_zero]
          intro m hm
          have := hinv m (by simpa using hm)
          simpa using this
        rw [List.countP_cons, hz]
        by_cases h0 : (m0.role == "system") = true <;> simp [h0]

/-- Claim C7 witness: the amended theorem applied to a concrete empty
history, a concrete append and a concrete resynchronization. -/
theorem system_invariant_preserved_witness :
    systemInvariant (initMessages plainAgent (some []) "q") ∧
      systemInvariant ([⟨"user", "q"⟩] ++ [(⟨"assistant", "x"⟩ : Message)]) ∧
      systemInvariant (syncSystemMessage [⟨"user", "q"⟩] "inst") ∧
      ([(⟨"system", "s"⟩ : Message), ⟨"user", "q"⟩].countP
        (fun m => m.role == "system") ≤ 1) :=
  ⟨system_invariant_preserved.1 plainAgent (some []) "q" (by simp),
    system_invariant_preserved.2.1 [⟨"user", "q"⟩] ⟨"assistant", "x"⟩ (by decide)
      (by simp),
    system_invariant_preserved.2.2.1 [⟨"user", "q"⟩] "inst" (by decide),
    system_invariant_preserved.2.2.2 [⟨"system", "s"⟩, ⟨"user", "q"⟩] (by decide)⟩

end OpenAIAgents
